import Mathlib

/-!
Verification development for the `all-git` command line tool
(`src/all-git.js`): repository discovery, per-repository status
aggregation and the action-recommendation decision procedure.

The JavaScript source is shallowly embedded: each definition below mirrors
one function or expression of `src/all-git.js` (the line numbers cited in
doc comments refer to that file).  JavaScript strings are Lean `String`s
(`slice` becomes `List.take`/`List.drop` on `String.data`), JavaScript
numbers that hold counts are `Int`, and the values that can be either a
count or a sentinel string (`"!"`, `""`, `"?"`) are the inductive
`DivValue`.  Asynchronous subprocess calls are modelled by passing their
results (`Option String`: `none` means the call threw) as arguments.
-/

namespace AllGit

/-- A divergence cell as produced by `status` (all-git.js lines 129-135):
either a commit count (a JavaScript number), or one of the three sentinel
strings that the code stores in the same variable: `"!"` from
`gitLogCount`'s catch branch (line 34), `""` when there is no branch name
(lines 129-130), `"?"` when the default branch is unresolvable
(lines 134-135). -/
inductive DivValue where
  | num (n : Nat)
  | bang
  | blank
  | quest
  deriving DecidableEq, Repr

/-- Whether the value is a JavaScript number (a real count) rather than a
sentinel string. -/
def DivValue.isNum : DivValue → Bool
  | .num _ => true
  | _ => false

/-- The JavaScript comparison `v > 0` (all-git.js lines 138-142) on the
values that can occur: for a number it is the numeric comparison; for the
sentinel strings JavaScript coerces with ToNumber — `"!"` and `"?"` give
NaN (every comparison false), `""` gives 0 (and `0 > 0` is false). -/
def DivValue.gtZero : DivValue → Bool
  | .num n => 0 < n
  | .bang => false
  | .blank => false
  | .quest => false

/-- The string a `DivValue` contributes to the output table (the cell is
printed as-is; a number prints in decimal). -/
def DivValue.display : DivValue → String
  | .num n => toString n
  | .bang => "!"
  | .blank => ""
  | .quest => "?"

/-- Replacing every sentinel by the count 0; used to state that the
decision procedure treats unknown divergence like zero. -/
def DivValue.ruleNorm : DivValue → DivValue
  | .num n => .num n
  | _ => .num 0

/-- `String.prototype.split` with a one-character separator, on character
lists: the chunks between occurrences of the separator (JavaScript
semantics: `"".split(sep)` is `[""]`, a trailing separator yields a
trailing empty chunk). -/
def jsSplitAux (sep : Char) : List Char → List Char → List (List Char)
  | [], acc => [acc.reverse]
  | x :: xs, acc =>
    if x = sep then acc.reverse :: jsSplitAux sep xs []
    else jsSplitAux sep xs (x :: acc)

/-- `s.split(sep)` for the one-character separators the source uses
(`"\n"` in `gitLogCount`, `"\0"` in the porcelain parse). -/
def jsSplit (sep : Char) (s : String) : List String :=
  (jsSplitAux sep s.data []).map (fun l => ⟨l⟩)

/-- `gitLogCount` (all-git.js lines 26-36): on success the count is the
number of output lines, computed as `stdout.split("\n").length - 1`; when
`git log` throws the result is the sentinel `"!"`.  The subprocess result
is passed in: `some out` is the captured stdout, `none` means the call
threw. -/
def gitLogCount (stdout : Option String) : DivValue :=
  match stdout with
  | some out => .num ((jsSplit '\n' out).length - 1)
  | none => .bang

/-- `behind`/`ahead` vs upstream (all-git.js lines 129-130):
`branch ? await gitLogCount(cwd, ..) : ""` — a JavaScript string is truthy
iff non-empty. -/
def upstreamCount (branch : String) (logResult : Option String) : DivValue :=
  if branch = "" then .blank else gitLogCount logResult

/-- `behindDefault`/`aheadDefault` (all-git.js lines 134-135):
`originDefault ? await gitLogCount(cwd, ..) : "?"`. -/
def defaultCount (originDefault : String) (logResult : Option String) : DivValue :=
  if originDefault = "" then .quest else gitLogCount logResult

/-- The fixed action enumeration (all-git.js lines 137-143). -/
inductive Action where
  | commit
  | resolve
  | pull
  | push
  | merge
  | pr
  | ok
  deriving DecidableEq, Repr

/-- The action decision (all-git.js lines 137-143), the nested conditional
`local ? 'commit' : ahead > 0 && behind > 0 ? "resolve" : behind > 0 ?
"pull" : ahead > 0 ? "push" : behindDefault > 0 ? "merge" :
aheadDefault > 0 ? "pr" : "ok"`. -/
def action (localChanges : Bool) (behind ahead behindDefault aheadDefault : DivValue) :
    Action :=
  if localChanges then .commit
  else if ahead.gtZero && behind.gtZero then .resolve
  else if behind.gtZero then .pull
  else if ahead.gtZero then .push
  else if behindDefault.gtZero then .merge
  else if aheadDefault.gtZero then .pr
  else .ok

/-- First-matching-rule selection over an ordered list of guarded actions,
with a default when no rule matches. -/
def firstMatch (dflt : Action) : List (Bool × Action) → Action
  | [] => dflt
  | (g, a) :: rest => if g then a else firstMatch dflt rest

/-- The decision procedure as the specification words it: the first
matching rule in the fixed priority order (spec §4.4), rules 3 and 4
guarded by "behind only" / "ahead only". -/
def actionSpec (localChanges : Bool) (behind ahead behindDefault aheadDefault : DivValue) :
    Action :=
  firstMatch .ok
    [(localChanges, .commit),
     (ahead.gtZero && behind.gtZero, .resolve),
     (behind.gtZero && !ahead.gtZero, .pull),
     (ahead.gtZero && !behind.gtZero, .push),
     (behindDefault.gtZero, .merge),
     (aheadDefault.gtZero, .pr)]

/-- `commonPrefix` on character lists: the index loop of all-git.js
lines 17-24 walks both strings while the characters agree and returns
`a.slice(0, index)`, i.e. the longest common leading run. -/
def commonPrefixAux : List Char → List Char → List Char
  | x :: xs, y :: ys => if x = y then x :: commonPrefixAux xs ys else []
  | _, _ => []

/-- `commonPrefix(a, b)` (all-git.js lines 17-24). -/
def commonPrefix (a b : String) : String :=
  ⟨commonPrefixAux a.data b.data⟩

/-- One update of the `commonRepositoryPrefix` accumulator
(all-git.js line 125): `commonPrefix(commonRepositoryPrefix ?? repo, repo)`;
the accumulator starts as `null` (`none`). -/
def accumStep (acc : Option String) (repo : String) : Option String :=
  some (commonPrefix (acc.getD repo) repo)

/-- The accumulated `commonRepositoryPrefix` after processing the given
remote URLs in the given order (all-git.js lines 98 and 125). -/
def commonRepositoryPrefix (repos : List String) : Option String :=
  repos.foldl accumStep none

/-- `repo.slice(commonRepositoryPrefix.length)` (all-git.js line 205):
the displayed remote URL, the full URL with the first `n` characters
removed. -/
def sliceFrom (s : String) (n : Nat) : String :=
  ⟨s.data.drop n⟩

/-- A directory-tree node, as `findGit` observes it through `readdir`
(`withFileTypes`): an entry name, whether it is a directory, and — when it
is — its child entries. -/
inductive FsEntry where
  | mk (name : String) (isDir : Bool) (children : List FsEntry)

/-- The entry's name (`dirEnt.name`). -/
def FsEntry.name : FsEntry → String
  | .mk n _ _ => n

/-- `dirEnt.isDirectory()`. -/
def FsEntry.isDir : FsEntry → Bool
  | .mk _ d _ => d

/-- The entry's child entries (what `readdir` returns inside it). -/
def FsEntry.children : FsEntry → List FsEntry
  | .mk _ _ c => c

mutual

/-- `findGit(path)` (all-git.js lines 43-55).  A path is its list of
segments, so `basename` is the entry's own name and `dirname` is the
`parent` argument.  If the final segment is `.git` the parent is a
repository and recursion stops; otherwise the directory's children are
listed and each subdirectory is recursed into, results flattened. -/
def findGit (parent : List String) : FsEntry → List (List String)
  | .mk nm _ children =>
    if nm = ".git" then [parent]
    else findGitList (parent ++ [nm]) children

/-- Recursing over a directory's entries: non-directories are ignored
(the `filter(isDirectory)` of line 51), each subdirectory contributes
`findGit` of itself, and the results are concatenated (`.flat()`). -/
def findGitList (path : List String) : List FsEntry → List (List String)
  | [] => []
  | e :: rest => (if e.isDir then findGit path e else []) ++ findGitList path rest

end

/-- The auto-creating map of counts (`new AutoMap(() => 0)`, all-git.js
line 101): a `Map` whose `get` inserts the default value 0 for an absent
key before returning it.  Insertion order is kept, as in a JavaScript
`Map`.  Counts are JavaScript numbers, modelled as `Int`. -/
structure AutoMap where
  entries : List (String × Int)
  deriving DecidableEq, Repr

/-- `map.get(key)` of an auto-creating map: returns the stored value and
the (possibly grown) map — an absent key is inserted with value 0. -/
def AutoMap.get (m : AutoMap) (k : String) : Int × AutoMap :=
  match m.entries.find? (fun e => e.1 = k) with
  | some e => (e.2, m)
  | none => (0, ⟨m.entries ++ [(k, 0)]⟩)

/-- `map.set(key, v)`: update in place when the key is present, append
otherwise (JavaScript `Map` insertion-order semantics). -/
def AutoMap.set (m : AutoMap) (k : String) (v : Int) : AutoMap :=
  if m.entries.any (fun e => e.1 = k) then
    ⟨m.entries.map (fun e => if e.1 = k then (k, v) else e)⟩
  else ⟨m.entries ++ [(k, v)]⟩

/-- `map.size`: the number of keys. -/
def AutoMap.size (m : AutoMap) : Nat := m.entries.length

/-- Parsing the porcelain status output (all-git.js lines 103-109):
split on NUL, keep entries longer than two characters, and take
`[line.slice(0, 2), line.slice(3)]` — status code and file name. -/
def parseStatus (stdout : String) : List (String × String) :=
  ((jsSplit '\x00' stdout).filter (fun line => line.length > 2)).map
    (fun line => (⟨line.data.take 2⟩, ⟨line.data.drop 3⟩))

/-- The `fileStatusCount` tally (all-git.js lines 101-109): for each
parsed entry, `fileStatusCount.set(key, fileStatusCount.get(key) + 1)`. -/
def tally (stdout : String) : AutoMap :=
  (parseStatus stdout).foldl
    (fun m kv =>
      let r := m.get kv.1
      r.2.set kv.1 (r.1 + 1)) ⟨[]⟩

/-- `local = fileStatusCount.size > 0` (all-git.js line 111), captured
before the per-category reads of lines 113-115. -/
def localChanges (stdout : String) : Bool := (tally stdout).size > 0

/-- The three per-category reads of all-git.js lines 113-115
(`get("??")`, `get(" M")`, `get(" D")`), each of which may insert a
zero-valued entry; returns the three counts and the map afterwards. -/
def countsRead (m : AutoMap) : (Int × Int × Int) × AutoMap :=
  let r1 := m.get "??"
  let r2 := r1.2.get " M"
  let r3 := r2.2.get " D"
  ((r1.1, r2.1, r3.1), r3.2)

/-- The 13-element array one repository's task returns inside `status`
(all-git.js lines 170-184): name, the three file counts, remote URL,
branch, fetch glyph, the four divergence cells, the action and its
detailed explanation. -/
structure Row where
  name : String
  newCount : Int
  modifiedCount : Int
  deletedCount : Int
  repo : String
  branch : String
  fetchStatus : String
  behind : DivValue
  ahead : DivValue
  behindDefault : DivValue
  aheadDefault : DivValue
  act : Action
  detailedAction : String
  deriving DecidableEq, Repr

/-- `forEachRepo` (all-git.js lines 57-69) applied to per-repository
outcomes: each repository is a path paired with what its `action` call
did (`ok` a value, or `error` a thrown message).  The first component is
the `Promise.all` result array — `none` where the catch block swallowed a
throw — and the second is the error-stream log, one `path message` line
per caught failure. -/
def forEachRepo {α : Type} (repos : List (String × Except String α)) :
    List (Option α) × List String :=
  (repos.map (fun pr => pr.2.toOption),
   repos.filterMap (fun pr =>
     match pr.2 with
     | .error e => some (pr.1 ++ " " ++ e)
     | .ok _ => none))

/-- The two display rows one `Row` expands to in the `flatMap` of
all-git.js lines 187-214: the primary row (remote URL with the common
prefix sliced off, divergence cells and counts printed) and the secondary
explanation row. -/
def splitRow (commonLen : Nat) (r : Row) : List (List String) :=
  [[r.name, toString r.newCount, toString r.modifiedCount, toString r.deletedCount,
    sliceFrom r.repo commonLen, r.branch, r.fetchStatus,
    r.behind.display, r.ahead.display,
    r.behindDefault.display, r.aheadDefault.display,
    toString (repr r.act)],
   [r.detailedAction]]

/-- The `rows.flatMap(([name, ...]) => ...)` step of all-git.js
lines 187-214 over the `Promise.all` result array: destructuring an
`undefined` entry (a repository whose task threw) throws a `TypeError`,
which aborts the whole `status` call. -/
def displayRows (commonLen : Nat) : List (Option Row) → Except String (List (List String))
  | [] => .ok []
  | none :: _ => .error "TypeError: undefined is not iterable"
  | some r :: rest => (displayRows commonLen rest).map (fun others => splitRow commonLen r ++ others)

/-- The `status` command's row pipeline (all-git.js lines 100-216) given
each repository's outcome: the error-stream log from `forEachRepo`, and
either the final display rows or the uncaught error that aborted the
run. -/
def statusRun (repos : List (String × Except String Row)) (commonLen : Nat) :
    Except String (List (List String)) × List String :=
  let r := forEachRepo repos
  (displayRows commonLen r.1, r.2)

/-- The command enumeration (all-git.js line 305:
`let commands = { status, run, commit, branch, checkout, pull, push, help }`). -/
inductive Cmd where
  | status
  | run
  | commit
  | branch
  | checkout
  | pull
  | push
  | help
  deriving DecidableEq, Repr

/-- The result of the property read `commands[name]` (all-git.js
line 308): one of the eight own properties — the command functions of the
object literal at line 305 — or, when the own keys miss, an inherited
member found on `Object.prototype` (a truthy value such as
`Object.prototype.toString`), or `undefined` when the whole prototype
chain misses. -/
inductive PropValue where
  | cmd (c : Cmd)
  | protoMember (nm : String)
  | undefinedVal
  deriving DecidableEq, Repr

/-- The property names a plain object literal inherits from
`Object.prototype`; reading any of them on `commands` yields a truthy
value (a function, or for the accessor an object). -/
def objectProtoKeys : List String :=
  ["constructor", "hasOwnProperty", "isPrototypeOf", "propertyIsEnumerable",
   "toLocaleString", "toString", "valueOf", "__proto__",
   "__defineGetter__", "__defineSetter__", "__lookupGetter__", "__lookupSetter__"]

/-- `commands[name]` (all-git.js lines 305 and 308): own-key lookup in the
object literal first, then the inherited `Object.prototype` members, then
`undefined`. -/
def commands (nm : String) : PropValue :=
  if nm = "status" then .cmd .status
  else if nm = "run" then .cmd .run
  else if nm = "commit" then .cmd .commit
  else if nm = "branch" then .cmd .branch
  else if nm = "checkout" then .cmd .checkout
  else if nm = "pull" then .cmd .pull
  else if nm = "push" then .cmd .push
  else if nm = "help" then .cmd .help
  else if nm ∈ objectProtoKeys then .protoMember nm
  else .undefinedVal

/-- What `(commands[command] || help)` invokes (all-git.js line 308): the
own command function when the name is an own key; the truthy inherited
`Object.prototype` member when the prototype chain hits (it preempts the
`|| help` fallback); and `help` only when the read gives `undefined` —
also for an absent first argument, since `commands[undefined]` reads the
key `"undefined"`, which misses everywhere. -/
def dispatch (arg : Option String) : PropValue :=
  match arg with
  | some nm =>
    match commands nm with
    | .undefinedVal => .cmd .help
    | v => v
  | none => .cmd .help

/-- What each command's function returns on success: `status` returns 0
(all-git.js line 223); every other command function ends without a
`return`, i.e. resolves to `undefined`. -/
def cmdReturn : Cmd → Option Nat
  | .status => some 0
  | _ => none

/-- The IIFE body plus `.catch(console.error)` (all-git.js lines 307-310):
on success the resolved value is `await cmd(...) ?? 0`; on a thrown error
the catch prints it and resolves to `undefined`.  Returns the resolved
value and the printed error, if any. -/
def resolvedValue : Except String (Option Nat) → Option Nat × Option String
  | .ok v => (some (v.getD 0), none)
  | .error e => (none, some e)

/-- `.then((code = 1) => (process.exitCode = code))` (all-git.js
line 311): the exit code is the resolved value, defaulting to 1 when it is
`undefined`. -/
def exitCode (resolved : Option Nat) : Nat := resolved.getD 1

/-! Helper lemmas about the embedded definitions. -/

theorem gtZero_ruleNorm (v : DivValue) : v.ruleNorm.gtZero = v.gtZero := by
  cases v <;> rfl

theorem mem_findGitList_isPrefix :
    ∀ (path : List String) (l : List FsEntry),
      ∀ p ∈ findGitList path l, path <+: p := by
  refine findGitList.induct
    (motive_1 := fun parent e => ∀ p ∈ findGit parent e, parent <+: p)
    (motive_2 := fun path l => ∀ p ∈ findGitList path l, path <+: p)
    ?_ ?_ ?_ ?_
  · intro parent d children p hp
    simp [findGit] at hp
    exact hp ▸ List.prefix_refl _
  · intro parent n d children hn ih p hp
    simp only [findGit, if_neg hn] at hp
    exact List.IsPrefix.trans (List.prefix_append _ _) (ih p hp)
  · intro path p hp
    simp [findGitList] at hp
  · intro path e rest ih1 ih2 p hp
    simp only [findGitList, List.mem_append] at hp
    rcases hp with hp | hp
    · by_cases hd : e.isDir
      · rw [if_pos hd] at hp
        exact ih1 p hp
      · rw [if_neg hd] at hp
        simp at hp
    · exact ih2 p hp

theorem findGitList_append (path : List String) (l₁ l₂ : List FsEntry) :
    findGitList path (l₁ ++ l₂) = findGitList path l₁ ++ findGitList path l₂ := by
  induction l₁ with
  | nil => simp [findGitList]
  | cons e rest ih => simp [findGitList, ih]

theorem findGitList_filter_map (path : List String) (l : List FsEntry) :
    findGitList path l = ((l.filter FsEntry.isDir).map (findGit path)).flatten := by
  induction l with
  | nil => simp [findGitList]
  | cons e rest ih =>
    by_cases hd : e.isDir = true <;>
      simp [findGitList, List.filter_cons, hd, ih]

theorem not_mem_findGitList_self (path : List String) (l : List FsEntry)
    (h : ∀ c ∈ l, ¬(c.isDir = true ∧ c.name = ".git")) :
    path ∉ findGitList path l := by
  induction l with
  | nil => simp [findGitList]
  | cons e rest ih =>
    simp only [findGitList, List.mem_append, not_or]
    refine ⟨?_, ih (fun c hc => h c (List.mem_cons_of_mem e hc))⟩
    by_cases hd : e.isDir
    · rw [if_pos hd]
      intro hmem
      cases e with
      | mk nm d children =>
        have hnm : nm ≠ ".git" := by
          intro hrfl
          exact h _ (List.mem_cons_self _ _) ⟨hd, hrfl⟩
        rw [findGit, if_neg hnm] at hmem
        have hpre := mem_findGitList_isPrefix (path ++ [nm]) children path hmem
        have := hpre.length_le
        simp at this
    · rw [if_neg hd]
      simp

theorem commonPrefixAux_nil_right (a : List Char) : commonPrefixAux a [] = [] := by
  cases a <;> rfl

theorem commonPrefixAux_self (a : List Char) : commonPrefixAux a a = a := by
  induction a with
  | nil => rfl
  | cons x xs ih => simp [commonPrefixAux, ih]

theorem commonPrefixAux_comm (a b : List Char) :
    commonPrefixAux a b = commonPrefixAux b a := by
  induction a generalizing b with
  | nil => cases b <;> rfl
  | cons x xs ih =>
    cases b with
    | nil => rfl
    | cons y ys =>
      by_cases h : x = y
      · subst h; simp [commonPrefixAux, ih]
      · rw [commonPrefixAux, commonPrefixAux, if_neg h, if_neg (Ne.symm h)]

theorem commonPrefixAux_assoc (a b c : List Char) :
    commonPrefixAux (commonPrefixAux a b) c = commonPrefixAux a (commonPrefixAux b c) := by
  induction a generalizing b c with
  | nil => cases b <;> cases c <;> rfl
  | cons x xs ih =>
    cases b with
    | nil => cases c <;> rfl
    | cons y ys =>
      cases c with
      | nil => simp [commonPrefixAux_nil_right]
      | cons z zs =>
        by_cases hxy : x = y
        · subst hxy
          by_cases hxz : x = z
          · subst hxz
            simp [commonPrefixAux, ih]
          · simp [commonPrefixAux, hxz]
        · by_cases hyz : y = z
          · subst hyz
            simp [commonPrefixAux, hxy]
          · simp [commonPrefixAux, hxy, hyz]

theorem commonPrefixAux_isPrefix_left (a b : List Char) :
    commonPrefixAux a b <+: a := by
  induction a generalizing b with
  | nil => cases b <;> simp [commonPrefixAux]
  | cons x xs ih =>
    cases b with
    | nil => simp [commonPrefixAux]
    | cons y ys =>
      by_cases h : x = y
      · subst h
        simpa [commonPrefixAux] using ih ys
      · simp [commonPrefixAux, h]

theorem commonPrefix_assoc (a b c : String) :
    commonPrefix (commonPrefix a b) c = commonPrefix a (commonPrefix b c) :=
  congrArg String.mk (commonPrefixAux_assoc a.data b.data c.data)

theorem commonPrefix_comm (a b : String) : commonPrefix a b = commonPrefix b a :=
  congrArg String.mk (commonPrefixAux_comm a.data b.data)

theorem commonPrefix_self (a : String) : commonPrefix a a = a := by
  have h := congrArg String.mk (commonPrefixAux_self a.data)
  cases a
  exact h

theorem commonPrefix_empty_right (a : String) : commonPrefix a "" = "" :=
  congrArg String.mk (commonPrefixAux_nil_right a.data)

theorem accumStep_rightComm (acc : Option String) (r₁ r₂ : String) :
    accumStep (accumStep acc r₁) r₂ = accumStep (accumStep acc r₂) r₁ := by
  cases acc with
  | none =>
    simp only [accumStep, Option.getD_none, Option.getD_some, commonPrefix_self]
    rw [commonPrefix_comm]
  | some x =>
    simp only [accumStep, Option.getD_some]
    rw [commonPrefix_assoc, commonPrefix_assoc, commonPrefix_comm r₁ r₂]

theorem commonPrefix_isPrefix_left (a b : String) :
    (commonPrefix a b).data <+: a.data :=
  commonPrefixAux_isPrefix_left a.data b.data

theorem commonPrefix_isPrefix_right (a b : String) :
    (commonPrefix a b).data <+: b.data := by
  rw [commonPrefix_comm]
  exact commonPrefixAux_isPrefix_left b.data a.data

theorem foldl_accumStep_isPrefix (l : List String) :
    ∀ (acc : Option String) (p : String), l.foldl accumStep acc = some p →
      (∀ u ∈ l, p.data <+: u.data) ∧ (∀ q, acc = some q → p.data <+: q.data) := by
  induction l with
  | nil =>
    intro acc p h
    refine ⟨by simp, fun q hq => ?_⟩
    simp only [List.foldl_nil] at h
    rw [hq] at h
    cases h
    exact List.prefix_refl _
  | cons u rest ih =>
    intro acc p h
    simp only [List.foldl_cons] at h
    obtain ⟨hrest, hacc⟩ := ih (accumStep acc u) p h
    have hu : p.data <+: u.data := by
      have := hacc (commonPrefix (acc.getD u) u) rfl
      exact this.trans (commonPrefix_isPrefix_right _ _)
    refine ⟨fun v hv => ?_, fun q hq => ?_⟩
    · rcases List.mem_cons.mp hv with rfl | hv
      · exact hu
      · exact hrest v hv
    · have := hacc (commonPrefix (acc.getD u) u) rfl
      rw [hq] at this
      simp only [Option.getD_some] at this
      exact this.trans (commonPrefix_isPrefix_left q u)

theorem foldl_accumStep_empty (l : List String) :
    l.foldl accumStep (some "") = some "" := by
  induction l with
  | nil => rfl
  | cons u rest ih =>
    have : accumStep (some "") u = some "" := by
      simp [accumStep, commonPrefix, commonPrefixAux]
    rw [List.foldl_cons, this, ih]

theorem foldl_accumStep_of_mem_empty (l : List String) :
    ∀ acc, "" ∈ l → l.foldl accumStep acc = some "" := by
  induction l with
  | nil => intro acc h; cases h
  | cons u rest ih =>
    intro acc h
    rcases List.mem_cons.mp h with rfl | h
    · show List.foldl accumStep (accumStep acc "") rest = some ""
      have hstep : accumStep acc "" = some "" := by
        simp [accumStep, commonPrefix_empty_right]
      rw [hstep]
      exact foldl_accumStep_empty rest
    · exact ih (accumStep acc u) h

theorem sliceFrom_of_isPrefix (p u : String) (h : p.data <+: u.data) :
    p ++ sliceFrom u p.length = u := by
  obtain ⟨t, ht⟩ := h
  cases p with
  | mk pd =>
    cases u with
    | mk ud =>
      simp only at ht
      show String.mk (pd ++ List.drop (String.length ⟨pd⟩) ud) = ⟨ud⟩
      rw [show String.length ⟨pd⟩ = pd.length from rfl, ← ht, List.drop_left]

theorem AutoMap.get_nonneg (m : AutoMap) (k : String)
    (h : ∀ e ∈ m.entries, 0 ≤ e.2) :
    0 ≤ (m.get k).1 ∧ ∀ e ∈ (m.get k).2.entries, 0 ≤ e.2 := by
  unfold AutoMap.get
  cases hf : m.entries.find? (fun e => e.1 = k) with
  | none =>
    refine ⟨le_refl 0, fun e he => ?_⟩
    simp only at he
    rcases List.mem_append.mp he with he | he
    · exact h e he
    · simp only [List.mem_singleton] at he
      rw [he]
  | some e0 =>
    exact ⟨h e0 (List.mem_of_find?_eq_some hf), h⟩

theorem AutoMap.set_nonneg (m : AutoMap) (k : String) (v : Int)
    (h : ∀ e ∈ m.entries, 0 ≤ e.2) (hv : 0 ≤ v) :
    ∀ e ∈ (m.set k v).entries, 0 ≤ e.2 := by
  unfold AutoMap.set
  intro e he
  by_cases hany : m.entries.any (fun e => e.1 = k)
  · rw [if_pos hany] at he
    simp only [List.mem_map] at he
    obtain ⟨e', he', heq⟩ := he
    by_cases hk : e'.1 = k
    · rw [if_pos hk] at heq
      rw [← heq]
      exact hv
    · rw [if_neg hk] at heq
      rw [← heq]
      exact h e' he'
  · rw [if_neg hany] at he
    rcases List.mem_append.mp he with he | he
    · exact h e he
    · simp only [List.mem_singleton] at he
      rw [he]
      exact hv

theorem tally_step_nonneg (l : List (String × String)) :
    ∀ m : AutoMap, (∀ e ∈ m.entries, 0 ≤ e.2) →
      ∀ e ∈ (l.foldl (fun m kv =>
          let r := m.get kv.1
          r.2.set kv.1 (r.1 + 1)) m).entries, 0 ≤ e.2 := by
  induction l with
  | nil => intro m hm; exact hm
  | cons kv rest ih =>
    intro m hm
    rw [List.foldl_cons]
    obtain ⟨hval, hmap⟩ := AutoMap.get_nonneg m kv.1 hm
    exact ih _ (AutoMap.set_nonneg _ kv.1 _ hmap (by omega))

theorem tally_nonneg (stdout : String) : ∀ e ∈ (tally stdout).entries, 0 ≤ e.2 := by
  unfold tally
  exact tally_step_nonneg (parseStatus stdout) ⟨[]⟩ (by simp)

/-! The claims. -/

/-- C1: the recommended action is a total, deterministic function of
`(hasLocalChanges, upstreamBehind, upstreamAhead, defaultBehind,
defaultAhead)` equal to the first matching rule in the fixed order
commit / resolve / pull / push / merge / pr / ok, and two states that
differ only in fields irrelevant to the first matching rule yield the same
action (rules 1-5 respectively ignore the later fields, as the congruence
conjuncts state). -/
theorem actionDecision_firstMatch :
    (∀ lc b a bd ad, action lc b a bd ad = actionSpec lc b a bd ad)
    ∧ (∀ b a bd ad b' a' bd' ad',
        action true b a bd ad = action true b' a' bd' ad')
    ∧ (∀ b a bd bd' ad ad', a.gtZero = true → b.gtZero = true →
        action false b a bd ad = action false b a bd' ad')
    ∧ (∀ b a bd bd' ad ad', b.gtZero = true → a.gtZero = false →
        action false b a bd ad = action false b a bd' ad')
    ∧ (∀ b a bd bd' ad ad', a.gtZero = true → b.gtZero = false →
        action false b a bd ad = action false b a bd' ad')
    ∧ (∀ b a bd ad ad', b.gtZero = false → a.gtZero = false → bd.gtZero = true →
        action false b a bd ad = action false b a bd ad') := by
  refine ⟨?_, ?_, ?_, ?_, ?_, ?_⟩
  · intro lc b a bd ad
    simp only [action, actionSpec, firstMatch]
    cases lc <;> cases hb : b.gtZero <;> cases ha : a.gtZero <;>
      cases hbd : bd.gtZero <;> cases had : ad.gtZero <;> simp [hb, ha, hbd, had]
  · intro b a bd ad b' a' bd' ad'
    simp [action]
  · intro b a bd bd' ad ad' ha hb
    simp [action, ha, hb]
  · intro b a bd bd' ad ad' hb ha
    simp [action, ha, hb]
  · intro b a bd bd' ad ad' ha hb
    simp [action, ha, hb]
  · intro b a bd ad ad' hb ha hbd
    simp [action, ha, hb, hbd]

/-- Witness for C1's congruence conjunct: a diverged repository keeps the
same action when its default-branch fields change. -/
theorem actionDecision_firstMatch_witness :
    action false (DivValue.num 2) (DivValue.num 3) (DivValue.num 9) DivValue.bang
      = action false (DivValue.num 2) (DivValue.num 3) DivValue.quest (DivValue.num 0) :=
  actionDecision_firstMatch.2.2.1 _ _ _ _ _ _ (by decide) (by decide)

/-- C3: a divergence value arising from a throwing log query or one that
could not be attempted (empty branch name, unresolvable default branch) is
never a number, never satisfies the `> 0` comparison of the decision
procedure, displays as a sentinel different from `"0"`, and for rule
matching behaves exactly like the count 0 (replacing every sentinel by
`num 0` leaves the action unchanged). -/
theorem unknownDivergence_neutral :
    (∀ branch logResult, branch = "" ∨ logResult = none →
      (upstreamCount branch logResult).isNum = false
      ∧ (upstreamCount branch logResult).gtZero = false
      ∧ (upstreamCount branch logResult).display ≠ "0")
    ∧ (∀ originDefault logResult, originDefault = "" ∨ logResult = none →
      (defaultCount originDefault logResult).isNum = false
      ∧ (defaultCount originDefault logResult).gtZero = false
      ∧ (defaultCount originDefault logResult).display ≠ "0")
    ∧ (∀ v : DivValue, v.isNum = false → v.gtZero = (DivValue.num 0).gtZero)
    ∧ (∀ lc b a bd ad,
        action lc b.ruleNorm a.ruleNorm bd.ruleNorm ad.ruleNorm = action lc b a bd ad) := by
  refine ⟨?_, ?_, ?_, ?_⟩
  · intro branch logResult h
    rcases h with h | h
    · subst h
      simp [upstreamCount, DivValue.isNum, DivValue.gtZero, DivValue.display]
    · subst h
      by_cases hb : branch = "" <;>
        simp [upstreamCount, hb, gitLogCount, DivValue.isNum, DivValue.gtZero,
          DivValue.display]
  · intro originDefault logResult h
    rcases h with h | h
    · subst h
      simp [defaultCount, DivValue.isNum, DivValue.gtZero, DivValue.display]
    · subst h
      by_cases hb : originDefault = "" <;>
        simp [defaultCount, hb, gitLogCount, DivValue.isNum, DivValue.gtZero,
          DivValue.display]
  · intro v hv
    cases v <;> simp_all [DivValue.isNum, DivValue.gtZero]
  · intro lc b a bd ad
    simp [action, gtZero_ruleNorm]

/-- Witness for C3: a repository with no branch name has an unknown
upstream divergence that matches no `> 0` rule and does not display as
`0`. -/
theorem unknownDivergence_neutral_witness :
    (upstreamCount "" (some "x")).isNum = false
    ∧ (upstreamCount "" (some "x")).gtZero = false
    ∧ (upstreamCount "" (some "x")).display ≠ "0" :=
  unknownDivergence_neutral.1 "" (some "x") (Or.inl rfl)

/-- C4, counterexample: contrary to the claim, a repository with an empty
remote URL does affect the common prefix — the accumulation of
all-git.js line 125 runs over every repository, and an empty URL collapses
the prefix to `""` instead of leaving it at the single non-empty URL. -/
theorem commonPrefixEmptyUrl_cex :
    commonRepositoryPrefix ["git@host:org/a.git", ""] = some ""
    ∧ commonRepositoryPrefix ["git@host:org/a.git"] = some "git@host:org/a.git"
    ∧ commonRepositoryPrefix ["git@host:org/a.git", ""]
        ≠ commonRepositoryPrefix ["git@host:org/a.git"] := by
  refine ⟨by decide, by decide, by decide⟩

/-- C4, amended: the common prefix is the pairwise reduction over all
remote URLs (an empty URL forces it to the empty string); whenever the
reduction produces a prefix it is a leading substring of every URL, and
the displayed URL — the full URL with the prefix sliced off — rebuilds the
full URL when the prefix is put back; for `git@host:org/a.git` and
`git@host:org/b.git` the prefix is `git@host:org/` and the displayed
values are `a.git` and `b.git`. -/
theorem commonPrefixStrip :
    (∀ repos p, commonRepositoryPrefix repos = some p →
      ∀ u ∈ repos, p.data <+: u.data ∧ p ++ sliceFrom u p.length = u)
    ∧ (∀ repos, "" ∈ repos → commonRepositoryPrefix repos = some "")
    ∧ commonRepositoryPrefix ["git@host:org/a.git", "git@host:org/b.git"]
        = some "git@host:org/"
    ∧ sliceFrom "git@host:org/a.git" "git@host:org/".length = "a.git"
    ∧ sliceFrom "git@host:org/b.git" "git@host:org/".length = "b.git" := by
  refine ⟨?_, ?_, by decide, by decide, by decide⟩
  · intro repos p h u hu
    have hpre := (foldl_accumStep_isPrefix repos none p h).1 u hu
    exact ⟨hpre, sliceFrom_of_isPrefix p u hpre⟩
  · intro repos h
    exact foldl_accumStep_of_mem_empty repos none h

/-- Witness for C4's amended claim at the two-repository scenario. -/
theorem commonPrefixStrip_witness :
    "git@host:org/".data <+: "git@host:org/a.git".data
    ∧ "git@host:org/" ++ sliceFrom "git@host:org/a.git" "git@host:org/".length
        = "git@host:org/a.git" :=
  commonPrefixStrip.1 ["git@host:org/a.git", "git@host:org/b.git"] "git@host:org/"
    (by decide) "git@host:org/a.git" (by decide)

/-- C5: the pairwise `commonPrefix` is associative, commutative and
idempotent; the reduced prefix of a single-element list is that element;
two strings with different first characters have the empty common prefix;
and the reduced prefix is invariant under permutation of the list. -/
theorem commonPrefixAlgebra :
    (∀ a b c : String, commonPrefix (commonPrefix a b) c = commonPrefix a (commonPrefix b c))
    ∧ (∀ a b : String, commonPrefix a b = commonPrefix b a)
    ∧ (∀ a : String, commonPrefix a a = a)
    ∧ (∀ a : String, commonRepositoryPrefix [a] = some a)
    ∧ (∀ (x y : Char) (xs ys : List Char), x ≠ y →
        commonPrefix ⟨x :: xs⟩ ⟨y :: ys⟩ = "")
    ∧ (∀ l₁ l₂ : List String, List.Perm l₁ l₂ →
        commonRepositoryPrefix l₁ = commonRepositoryPrefix l₂) := by
  refine ⟨commonPrefix_assoc, commonPrefix_comm, commonPrefix_self, ?_, ?_, ?_⟩
  · intro a
    show accumStep none a = some a
    simp [accumStep, commonPrefix_self]
  · intro x y xs ys h
    show String.mk (commonPrefixAux (x :: xs) (y :: ys)) = ""
    rw [commonPrefixAux, if_neg h]
  · intro l₁ l₂ h
    exact h.foldl_eq' (fun x _ y _ z => accumStep_rightComm z x y) none

/-- Witness for C5's order-independence at a two-element permutation. -/
theorem commonPrefixAlgebra_witness :
    commonRepositoryPrefix ["ab", "ba"] = commonRepositoryPrefix ["ba", "ab"] :=
  commonPrefixAlgebra.2.2.2.2.2 ["ab", "ba"] ["ba", "ab"] (List.Perm.swap "ba" "ab" [])

/-- C6: the repository locator returns exactly the parent when the path's
final segment is `.git`; otherwise it returns the flattened concatenation
of recursing into each immediate subdirectory, ignoring non-directory
entries; and a directory with no subdirectories yields the empty list. -/
theorem findGitLocator :
    (∀ parent d children, findGit parent (.mk ".git" d children) = [parent])
    ∧ (∀ parent nm d children, nm ≠ ".git" →
        findGit parent (.mk nm d children)
          = ((children.filter FsEntry.isDir).map (findGit (parent ++ [nm]))).flatten)
    ∧ (∀ parent nm d children, nm ≠ ".git" →
        (∀ c ∈ children, c.isDir = false) →
        findGit parent (.mk nm d children) = []) := by
  refine ⟨?_, ?_, ?_⟩
  · intro parent d children
    simp [findGit]
  · intro parent nm d children hn
    rw [findGit, if_neg hn, findGitList_filter_map]
  · intro parent nm d children hn hnd
    rw [findGit, if_neg hn, findGitList_filter_map]
    have : children.filter FsEntry.isDir = [] := by
      rw [List.filter_eq_nil_iff]
      intro c hc
      simp [hnd c hc]
    rw [this]
    rfl

/-- Witness for C6: a directory holding only a file yields no
repositories. -/
theorem findGitLocator_witness :
    findGit [] (FsEntry.mk "top" true [FsEntry.mk "readme" false []]) = [] :=
  findGitLocator.2.2 [] "top" true [FsEntry.mk "readme" false []]
    (by decide) (by decide)

/-- C7: every tally count is non-negative, the local-changes predicate
holds iff the tally is non-empty (so an empty tally means no local
changes), and a repository whose only entry is one untracked file tallies
`??` to 1 and is classified `commit` whatever the divergence fields
hold. -/
theorem tallyLocalChanges :
    (∀ stdout, ∀ e ∈ (tally stdout).entries, 0 ≤ e.2)
    ∧ (∀ stdout, localChanges stdout = true ↔ (tally stdout).entries ≠ [])
    ∧ (∀ stdout, (tally stdout).entries = [] → localChanges stdout = false)
    ∧ tally "?? file.txt\x00" = ⟨[("??", 1)]⟩
    ∧ localChanges "?? file.txt\x00" = true
    ∧ (∀ b a bd ad, action (localChanges "?? file.txt\x00") b a bd ad = .commit) := by
  refine ⟨tally_nonneg, ?_, ?_, by decide, by decide, ?_⟩
  · intro stdout
    simp [localChanges, AutoMap.size, List.length_pos]
  · intro stdout h
    simp [localChanges, AutoMap.size, h]
  · intro b a bd ad
    rw [show localChanges "?? file.txt\x00" = true by decide]
    rfl

/-- Witness for C7's non-negativity at the untracked-file scenario. -/
theorem tallyLocalChanges_witness :
    (0 : Int) ≤ (("??", (1 : Int))).2 :=
  tallyLocalChanges.1 "?? file.txt\x00" ("??", 1) (by decide)

/-- C9: reading an absent key from the auto-creating map inserts a
zero-valued entry and returns 0, but `local` is captured from the tally's
size before the three per-category reads; for empty porcelain output the
predicate is false and the action is never `commit`, even though the map
afterwards holds three zero-valued entries. -/
theorem autoCreateReadOrder :
    (∀ (m : AutoMap) k, m.entries.find? (fun e => e.1 = k) = none →
      (m.get k).1 = 0 ∧ (m.get k).2.entries = m.entries ++ [(k, 0)])
    ∧ tally "" = ⟨[]⟩
    ∧ localChanges "" = false
    ∧ (countsRead (tally "")).2.entries = [("??", 0), (" M", 0), (" D", 0)]
    ∧ (∀ b a bd ad, action (localChanges "") b a bd ad ≠ .commit) := by
  refine ⟨?_, by decide, by decide, by decide, ?_⟩
  · intro m k h
    unfold AutoMap.get
    rw [h]
    exact ⟨rfl, rfl⟩
  · intro b a bd ad
    rw [show localChanges "" = false by decide]
    unfold action
    split
    · simp_all
    · split
      · simp
      · split
        · simp
        · split
          · simp
          · split
            · simp
            · split <;> simp

/-- Witness for C9's auto-creating read at the empty map. -/
theorem autoCreateReadOrder_witness :
    ((AutoMap.mk []).get "??").1 = 0
    ∧ ((AutoMap.mk []).get "??").2.entries = [] ++ [("??", 0)] :=
  autoCreateReadOrder.1 ⟨[]⟩ "??" (by decide)

/-- Sample rows used as the C2 failing input. -/
def sampleRow (nm url : String) : Row :=
  ⟨nm, 0, 0, 0, url, "main", "y", .num 0, .num 0, .num 0, .num 0, .ok, ""⟩

/-- C2: at the failing input — three repositories of which the middle
one's status gathering throws — the error is caught and logged with the
repository path and message, as the claim says; but the `Promise.all`
array then holds `undefined` for that repository, and the row-building
`flatMap` destructures it and throws a `TypeError`, so the whole `status`
run aborts and no repository produces rows, contradicting the claim (the
third conjunct shows the same input without the failing repository
renders both remaining repositories' rows). -/
theorem statusAbortBug :
    (forEachRepo [("a", Except.ok (sampleRow "a" "urlA")),
                  ("b", Except.error "permission denied"),
                  ("c", Except.ok (sampleRow "c" "urlC"))]).2
        = ["b permission denied"]
    ∧ (statusRun [("a", Except.ok (sampleRow "a" "urlA")),
                  ("b", Except.error "permission denied"),
                  ("c", Except.ok (sampleRow "c" "urlC"))] 0).1
        = Except.error "TypeError: undefined is not iterable"
    ∧ (statusRun [("a", Except.ok (sampleRow "a" "urlA")),
                  ("c", Except.ok (sampleRow "c" "urlC"))] 0).1
        = Except.ok (splitRow 0 (sampleRow "a" "urlA") ++ splitRow 0 (sampleRow "c" "urlC")) := by
  refine ⟨by decide, rfl, rfl⟩

/-- C8, counterexample: `toString` is not one of the eight commands, yet
the program does not fall back to `help` — the object lookup hits the
truthy inherited `Object.prototype.toString`, which preempts the
`|| help` fallback and is invoked instead. -/
theorem dispatchProtoLookup_cex :
    dispatch (some "toString") = PropValue.protoMember "toString"
    ∧ dispatch (some "toString") ≠ PropValue.cmd Cmd.help := by
  refine ⟨by decide, by decide⟩

/-- C8, amended: an absent command name, or an unrecognized one that is
not an inherited `Object.prototype` property, dispatches to `help`; an
unrecognized name that is such an inherited property invokes the truthy
inherited member instead of `help`; on a command function that completes,
the resolved value is its return value defaulted to 0 and the exit code
is 0; on an uncaught error the error is printed and the exit code is 1,
which is non-zero. -/
theorem dispatchExit :
    (∀ nm, nm ∉ ["status", "run", "commit", "branch", "checkout", "pull", "push", "help"] →
      nm ∉ objectProtoKeys → dispatch (some nm) = PropValue.cmd Cmd.help)
    ∧ dispatch none = PropValue.cmd Cmd.help
    ∧ (∀ nm, nm ∈ objectProtoKeys → dispatch (some nm) = PropValue.protoMember nm)
    ∧ (∀ c, resolvedValue (Except.ok (cmdReturn c)) = (some ((cmdReturn c).getD 0), none)
        ∧ exitCode (resolvedValue (Except.ok (cmdReturn c))).1 = 0)
    ∧ (∀ e, resolvedValue (Except.error e) = (none, some e)
        ∧ exitCode (resolvedValue (Except.error e)).1 = 1 ∧ (1 : Nat) ≠ 0) := by
  refine ⟨?_, rfl, ?_, ?_, ?_⟩
  · intro nm h hp
    simp only [List.mem_cons, List.not_mem_nil, or_false, not_or] at h
    obtain ⟨h1, h2, h3, h4, h5, h6, h7, h8⟩ := h
    simp [dispatch, commands, h1, h2, h3, h4, h5, h6, h7, h8, hp]
  · intro nm hmem
    simp only [objectProtoKeys, List.mem_cons, List.not_mem_nil, or_false] at hmem
    rcases hmem with rfl | rfl | rfl | rfl | rfl | rfl | rfl | rfl | rfl | rfl | rfl | rfl <;>
      decide
  · intro c
    cases c <;> exact ⟨rfl, rfl⟩
  · intro e
    exact ⟨rfl, rfl, by decide⟩

/-- Witness for C8 at an unknown command name that is also no inherited
property. -/
theorem dispatchExit_witness : dispatch (some "frobnicate") = PropValue.cmd Cmd.help :=
  dispatchExit.1 "frobnicate" (by decide) (by decide)

/-- C10: discovery does not stop at a repository root — scanning a
directory that has a `.git` child still recurses into the sibling
subdirectories (the result is the concatenation of the results before the
`.git` child, the parent itself, and the results after it), and when the
`.git` child is the only one, the working tree appears exactly once in
the result. -/
theorem findGitNested :
    ∀ parent nm d pre post gc, nm ≠ ".git" →
    (∀ c ∈ pre ++ post, ¬(c.isDir = true ∧ c.name = ".git")) →
    findGit parent (.mk nm d (pre ++ FsEntry.mk ".git" true gc :: post))
      = findGitList (parent ++ [nm]) pre ++ [parent ++ [nm]]
        ++ findGitList (parent ++ [nm]) post
    ∧ (findGit parent (.mk nm d (pre ++ FsEntry.mk ".git" true gc :: post))).count
        (parent ++ [nm]) = 1 := by
  intro parent nm d pre post gc hnm hng
  have heq : findGit parent (.mk nm d (pre ++ FsEntry.mk ".git" true gc :: post))
      = findGitList (parent ++ [nm]) pre ++ [parent ++ [nm]]
        ++ findGitList (parent ++ [nm]) post := by
    rw [findGit, if_neg hnm, findGitList_append]
    have : findGitList (parent ++ [nm]) (FsEntry.mk ".git" true gc :: post)
        = [parent ++ [nm]] ++ findGitList (parent ++ [nm]) post := by
      rw [findGitList]
      simp [FsEntry.isDir, findGit]
    rw [this, List.append_assoc]
  refine ⟨heq, ?_⟩
  rw [heq]
  have hpre0 : (findGitList (parent ++ [nm]) pre).count (parent ++ [nm]) = 0 :=
    List.count_eq_zero.mpr
      (not_mem_findGitList_self (parent ++ [nm]) pre
        (fun c hc => hng c (List.mem_append_left post hc)))
  have hpost0 : (findGitList (parent ++ [nm]) post).count (parent ++ [nm]) = 0 :=
    List.count_eq_zero.mpr
      (not_mem_findGitList_self (parent ++ [nm]) post
        (fun c hc => hng c (List.mem_append_right pre hc)))
  rw [List.count_append, List.count_append, hpre0, hpost0]
  simp

/-- Witness for C10: a working tree with a plain subdirectory, its `.git`
child and a nested repository is found once, with the nested repository
still scanned. -/
theorem findGitNested_witness :
    findGit [] (FsEntry.mk "work" true
        [FsEntry.mk "a" true [],
         FsEntry.mk ".git" true [],
         FsEntry.mk "sub" true [FsEntry.mk ".git" true []]])
      = findGitList ["work"] [FsEntry.mk "a" true []] ++ [["work"]]
        ++ findGitList ["work"] [FsEntry.mk "sub" true [FsEntry.mk ".git" true []]]
    ∧ (findGit [] (FsEntry.mk "work" true
        [FsEntry.mk "a" true [],
         FsEntry.mk ".git" true [],
         FsEntry.mk "sub" true [FsEntry.mk ".git" true []]])).count ["work"] = 1 :=
  findGitNested [] "work" true [FsEntry.mk "a" true []]
    [FsEntry.mk "sub" true [FsEntry.mk ".git" true []]] []
    (by decide) (by decide)

end AllGit
